import Mathlib

/-!
Verification of the tengu-transcriber core against its specification.

The development shallowly embeds the Python sources:
  * `src/batch_processor.py`   (aligner, timestamp formatting, batch loop)
  * `src/transcript_formatter.py` (plain-text transcript rendering)
  * `src/search_engine.py`     (transcript parsing, keyword / semantic search, Q&A)
  * `src/llm_processor.py`     (LLM gateway)

Text is modelled as `List Char` (named `Str`), Python floats that carry
time values as `ℚ`, and fallible operations as `Option` / `Except`.
External engines (Whisper, pyannote, sentence-transformers, LLM backends)
are inputs to the embedded functions, exactly as their results are inputs
to the Python code under analysis.
-/

/-- Character strings of the Python program, as lists of characters. -/
abbrev Str := List Char

/-- Python `str.isspace` on the ASCII whitespace characters that the
sources can produce (the transcripts manipulated here never contain the
exotic Unicode whitespace code points). -/
def isPySpace (c : Char) : Bool :=
  c = ' ' || c = '\t' || c = '\n' || c = '\r' || c = '\x0b' || c = '\x0c'

/-- Drop whitespace from the end of a string. -/
def dropRightSpaces (l : Str) : Str :=
  (l.reverse.dropWhile isPySpace).reverse

/-- Python `str.strip()`: drop whitespace from both ends. -/
def pyStrip (l : Str) : Str :=
  dropRightSpaces (l.dropWhile isPySpace)

/-- Substring test, Python `needle in haystack` on strings. -/
def isSubstring (pat : Str) : Str → Bool
  | [] => pat.isPrefixOf []
  | c :: rest => pat.isPrefixOf (c :: rest) || isSubstring pat rest

/-- Python `str.lower` restricted to the character-wise case fold that the
ASCII data of this program exercises. -/
def pyLower (l : Str) : Str := l.map Char.toLower

/-- One Whisper segment: `result["segments"][i]` with keys
`start`, `end`, `text` (field `stop` embeds the Python key `end`,
which is a reserved word in Lean). -/
structure RawSegment where
  start : ℚ
  stop : ℚ
  text : Str
deriving DecidableEq, Repr

/-- One pyannote diarization turn `(segment.start, segment.end, speaker)`
(field `stop` embeds the Python attribute `end`). -/
structure DiarizationTurn where
  start : ℚ
  stop : ℚ
  speaker : Str
deriving DecidableEq, Repr

/-- One aligned, speaker-labeled segment: the dicts appended to
`segments_with_speakers` in `transcribe_audio_with_whisper`
(`src/batch_processor.py`), with formatted timestamps. -/
structure AlignedSegment where
  start : Str
  stop : Str
  speaker : Str
  text : Str
deriving DecidableEq, Repr

instance : Inhabited AlignedSegment := ⟨⟨[], [], [], []⟩⟩

/-- Python `a // b` on floats (for `b > 0`), as used by `format_timestamp`. -/
def pyFloorDiv (a b : ℚ) : ℤ := ⌊a / b⌋

/-- Python `a % b` on floats: `a - b * (a // b)`. -/
def pyMod (a b : ℚ) : ℚ := a - b * (pyFloorDiv a b : ℚ)

/-- Python `f"{n:02d}"`: decimal rendering padded to width two with a
leading zero. -/
def padTwo (n : ℤ) : Str :=
  if 0 ≤ n ∧ n < 10 then '0' :: (toString n).toList else (toString n).toList

/-- `format_timestamp` from `src/batch_processor.py` lines 242-247:
`hours = int(seconds // 3600)`, `minutes = int((seconds % 3600) // 60)`,
`secs = int(seconds % 60)`, rendered `f"{hours:02d}:{minutes:02d}:{secs:02d}"`.
The outer `int(...)` truncates toward zero; on `seconds // 3600` and
`(seconds % 3600) // 60` it is the identity (those are already integral)
and `seconds % 60` is never negative, so it is the floor there. -/
def format_timestamp (seconds : ℚ) : Str :=
  padTwo (pyFloorDiv seconds 3600) ++ ':' ::
  padTwo (pyFloorDiv (pyMod seconds 3600) 60) ++ ':' ::
  padTwo ⌊pyMod seconds 60⌋

/-- The inner loop of the diarized branch of `transcribe_audio_with_whisper`
(`src/batch_processor.py` lines 170-176): `segment_text` starts empty and,
for every Whisper segment whose `[start, end]` lies fully inside the turn,
receives `whisper_segment["text"] + " "`. -/
def turnText (rawSegments : List RawSegment) (turn : DiarizationTurn) : Str :=
  rawSegments.foldl (fun t w =>
    if turn.start ≤ w.start ∧ w.stop ≤ turn.stop then t ++ w.text ++ [' '] else t) []

/-- The diarized branch of `transcribe_audio_with_whisper`
(`src/batch_processor.py` lines 166-184): for every diarization turn,
accumulate `segment_text` (the `turnText` loop above); if
`segment_text.strip()` is non-empty, append one speaker dict with the turn
bounds formatted and the stripped text. -/
def alignDiarized (rawSegments : List RawSegment) (turns : List DiarizationTurn) :
    List AlignedSegment :=
  turns.foldl (fun acc turn =>
    if pyStrip (turnText rawSegments turn) ≠ [] then
      acc ++ [{ start := format_timestamp turn.start, stop := format_timestamp turn.stop,
                speaker := turn.speaker, text := pyStrip (turnText rawSegments turn) }]
    else acc) []

/-- The fallback branches of `transcribe_audio_with_whisper`
(`src/batch_processor.py` lines 185-201): one dict per Whisper segment,
speaker fixed to `SPEAKER_00`, text stripped. -/
def alignFallback (rawSegments : List RawSegment) : List AlignedSegment :=
  rawSegments.map (fun segment =>
    { start := format_timestamp segment.start, stop := format_timestamp segment.stop,
      speaker := "SPEAKER_00".toList, text := pyStrip segment.text })

/-- How the diarization engine behaved on one item: the pipeline object was
absent (`load_diarization_pipeline` returned `None`), or the call raised,
or it returned a list of turns. -/
inductive DiarizationOutcome where
  | absent : DiarizationOutcome
  | failure (message : Str) : DiarizationOutcome
  | turns (turns : List DiarizationTurn) : DiarizationOutcome
deriving DecidableEq, Repr

/-- The speaker-alignment logic of `transcribe_audio_with_whisper`:
`if diarization_pipeline:` guards the diarized branch, whose `except`
falls back to the per-segment default labels, and the `else` branch is the
same fallback. -/
def alignSegments (rawSegments : List RawSegment) :
    DiarizationOutcome → List AlignedSegment
  | .turns turns => alignDiarized rawSegments turns
  | .failure _ => alignFallback rawSegments
  | .absent => alignFallback rawSegments

/-- Transcription-and-alignment stage as seen by `process_video`: a failed
transcription raises (`Except.error`); a present-but-failing diarization
does not — the surrounding `try` of `transcribe_audio_with_whisper` is
re-raised only for errors outside the inner diarization `try`. The Whisper
result is an input (external engine). -/
def transcribeAndAlign (transcription : Except Str (List RawSegment))
    (diarization : DiarizationOutcome) : Except Str (List AlignedSegment) :=
  match transcription with
  | .error e => .error e
  | .ok rawSegments => .ok (alignSegments rawSegments diarization)

/-- C3: if the diarization engine is absent, or raises after transcription
already succeeded, the transcription stage still returns successfully (the
item is not aborted) with exactly one `AlignedSegment` per `RawSegment`,
in `RawSegment` order, every one labeled with the default speaker
`SPEAKER_00`. -/
theorem diarization_fallback (raw : List RawSegment) (d : DiarizationOutcome)
    (h : d = .absent ∨ ∃ e, d = .failure e) :
    transcribeAndAlign (.ok raw) d = .ok (alignFallback raw)
    ∧ (alignSegments raw d).length = raw.length
    ∧ (alignSegments raw d) = raw.map (fun segment =>
        { start := format_timestamp segment.start, stop := format_timestamp segment.stop,
          speaker := "SPEAKER_00".toList, text := pyStrip segment.text })
    ∧ ∀ a ∈ alignSegments raw d, a.speaker = "SPEAKER_00".toList := by
  have main : ∀ a ∈ alignFallback raw, a.speaker = "SPEAKER_00".toList := by
    intro a ha
    simp only [alignFallback, List.mem_map] at ha
    obtain ⟨s, _, rfl⟩ := ha
    rfl
  obtain (rfl | ⟨e, rfl⟩) := h
  · exact ⟨rfl, by simp [alignSegments, alignFallback], rfl, main⟩
  · exact ⟨rfl, by simp [alignSegments, alignFallback], rfl, main⟩

/-- Witness for C3 at a concrete run: one Whisper segment, diarization
pipeline absent in one conjunct and raising in the other. -/
theorem diarization_fallback_witness :
    (transcribeAndAlign (.ok [⟨0, 1, " hello ".toList⟩]) .absent
        = .ok (alignFallback [⟨0, 1, " hello ".toList⟩])
      ∧ (alignSegments [⟨0, 1, " hello ".toList⟩] .absent).length = 1
      ∧ ∀ a ∈ alignSegments [⟨0, 1, " hello ".toList⟩] DiarizationOutcome.absent,
          a.speaker = "SPEAKER_00".toList)
    ∧ (transcribeAndAlign (.ok [⟨0, 1, " hello ".toList⟩]) (.failure "boom".toList)
        = .ok (alignFallback [⟨0, 1, " hello ".toList⟩])) :=
  ⟨⟨(diarization_fallback [⟨0, 1, " hello ".toList⟩] .absent (Or.inl rfl)).1,
    (diarization_fallback [⟨0, 1, " hello ".toList⟩] .absent (Or.inl rfl)).2.1,
    (diarization_fallback [⟨0, 1, " hello ".toList⟩] .absent (Or.inl rfl)).2.2.2⟩,
   (diarization_fallback [⟨0, 1, " hello ".toList⟩] (.failure "boom".toList)
      (Or.inr ⟨"boom".toList, rfl⟩)).1⟩

lemma floor_div_natCast (q : ℚ) (n : ℕ) (hn : 0 < n) : ⌊q / (n:ℚ)⌋ = ⌊q⌋ / (n:ℤ) := by
  have hn' : (0:ℚ) < (n:ℚ) := by exact_mod_cast hn
  rw [Int.floor_eq_iff]
  constructor
  · rw [le_div_iff hn']
    have h1 : ((⌊q⌋ / (n:ℤ)) * (n:ℤ) : ℤ) ≤ ⌊q⌋ := Int.ediv_mul_le _ (by omega)
    calc ((⌊q⌋ / (n:ℤ) : ℤ) : ℚ) * (n:ℚ) = (((⌊q⌋ / (n:ℤ)) * (n:ℤ) : ℤ) : ℚ) := by push_cast; ring
    _ ≤ ((⌊q⌋ : ℤ) : ℚ) := by exact_mod_cast h1
    _ ≤ q := Int.floor_le q
  · rw [div_lt_iff hn']
    have h2 : ⌊q⌋ + 1 ≤ (⌊q⌋ / (n:ℤ) + 1) * (n:ℤ) := by
      have := Int.lt_ediv_add_one_mul_self ⌊q⌋ (show (0:ℤ) < (n:ℤ) by exact_mod_cast hn)
      omega
    calc q < (⌊q⌋ : ℚ) + 1 := Int.lt_floor_add_one q
    _ ≤ (((⌊q⌋ / (n:ℤ) + 1) * (n:ℤ) : ℤ) : ℚ) := by exact_mod_cast h2
    _ = (((⌊q⌋ / (n:ℤ) : ℤ) : ℚ) + 1) * (n:ℚ) := by push_cast; ring

lemma floor_pyMod_natCast (q : ℚ) (n : ℕ) (hn : 0 < n) :
    ⌊pyMod q (n:ℚ)⌋ = ⌊q⌋ % (n:ℤ) := by
  rw [pyMod, pyFloorDiv, floor_div_natCast q n hn]
  have : q - (n:ℚ) * ((⌊q⌋ / (n:ℤ) : ℤ) : ℚ) = q - ((n * (⌊q⌋ / (n:ℤ)) : ℤ) : ℚ) := by
    push_cast; ring
  rw [this, Int.floor_sub_int, Int.emod_def]

lemma pyMod_nonneg_lt (q : ℚ) (n : ℕ) (hn : 0 < n) :
    0 ≤ pyMod q (n:ℚ) ∧ pyMod q (n:ℚ) < (n:ℚ) := by
  have hn' : (0:ℚ) < (n:ℚ) := by exact_mod_cast hn
  have hne : (n:ℚ) ≠ 0 := ne_of_gt hn'
  constructor
  · have := Int.floor_le (q / (n:ℚ))
    rw [pyMod, pyFloorDiv, sub_nonneg]
    calc (n:ℚ) * (⌊q / (n:ℚ)⌋ : ℚ) ≤ (n:ℚ) * (q / (n:ℚ)) := by
          exact mul_le_mul_of_nonneg_left this (le_of_lt hn')
    _ = q := by field_simp
  · have := Int.lt_floor_add_one (q / (n:ℚ))
    rw [pyMod, pyFloorDiv, sub_lt_iff_lt_add]
    calc q = (n:ℚ) * (q / (n:ℚ)) := by field_simp
    _ < (n:ℚ) * ((⌊q / (n:ℚ)⌋ : ℚ) + 1) := by
          exact mul_lt_mul_of_pos_left this hn'
    _ = (n:ℚ) + (n:ℚ) * (⌊q / (n:ℚ)⌋ : ℚ) := by ring

/-- C9: for every non-negative rational number of seconds, the timestamp
formatter renders the zero-padded `HH:MM:SS` decomposition of the whole
number of seconds `⌊s⌋`: seconds, minutes and hours are truncated toward
zero (floor, for non-negative input), never rounded up. -/
theorem format_timestamp_truncates (s : ℚ) (h : 0 ≤ s) :
    format_timestamp s
      = padTwo (⌊s⌋ / 3600) ++ ':' :: padTwo (⌊s⌋ % 3600 / 60) ++ ':' ::
        padTwo (⌊s⌋ % 60) := by
  have h3600 : ⌊s / ((3600:ℕ):ℚ)⌋ = ⌊s⌋ / ((3600:ℕ):ℤ) := floor_div_natCast s 3600 (by norm_num)
  have hmod : ⌊pyMod s ((3600:ℕ):ℚ)⌋ = ⌊s⌋ % ((3600:ℕ):ℤ) := floor_pyMod_natCast s 3600 (by norm_num)
  have hmin : ⌊pyMod s ((3600:ℕ):ℚ) / ((60:ℕ):ℚ)⌋ = ⌊pyMod s ((3600:ℕ):ℚ)⌋ / ((60:ℕ):ℤ) :=
    floor_div_natCast _ 60 (by norm_num)
  have hsec : ⌊pyMod s ((60:ℕ):ℚ)⌋ = ⌊s⌋ % ((60:ℕ):ℤ) := floor_pyMod_natCast s 60 (by norm_num)
  have e1 : ((3600:ℕ):ℚ) = (3600:ℚ) := by norm_num
  have e2 : ((60:ℕ):ℚ) = (60:ℚ) := by norm_num
  have e3 : ((3600:ℕ):ℤ) = (3600:ℤ) := by norm_num
  have e4 : ((60:ℕ):ℤ) = (60:ℤ) := by norm_num
  rw [e1, e3] at h3600 hmod
  rw [e1, e2, e4] at hmin
  rw [e2, e4] at hsec
  rw [format_timestamp, pyFloorDiv, pyFloorDiv, h3600, hmin, hmod, hsec]

/-- The space-joined concatenation of a list of texts, the operation named
by the specification sentence "concatenate their text (space-joined)".
Stated from the words of the spec, for comparison with `alignDiarized`. -/
def specSpaceJoin : List Str → Str
  | [] => []
  | [t] => t
  | t :: rest => t ++ ' ' :: specSpaceJoin rest

lemma dropRightSpaces_append_space (l : Str) :
    dropRightSpaces (l ++ [' ']) = dropRightSpaces l := by
  simp [dropRightSpaces, List.dropWhile_cons, isPySpace]

lemma pyStrip_append_space (l : Str) : pyStrip (l ++ [' ']) = pyStrip l := by
  unfold pyStrip
  rw [List.dropWhile_append]
  cases hE : (l.dropWhile isPySpace).isEmpty with
  | true =>
    simp [hE, List.isEmpty_iff.mp hE, dropRightSpaces, List.dropWhile_cons, isPySpace]
  | false => simp [hE, dropRightSpaces_append_space]

lemma flatten_map_append_space (ts : List Str) (h : ts ≠ []) :
    (ts.map (· ++ [' '])).flatten = specSpaceJoin ts ++ [' '] := by
  induction ts with
  | nil => simp at h
  | cons t rest ih =>
    cases rest with
    | nil => simp [specSpaceJoin]
    | cons u more =>
      simp only [List.map_cons, List.flatten_cons] at ih ⊢
      rw [ih (by simp)]
      simp [specSpaceJoin]

lemma pyStrip_flatten_map_space (ts : List Str) :
    pyStrip ((ts.map (· ++ [' '])).flatten) = pyStrip (specSpaceJoin ts) := by
  cases ts with
  | nil => simp [specSpaceJoin]
  | cons t rest => rw [flatten_map_append_space _ (by simp), pyStrip_append_space]

lemma foldl_text_accum (P : RawSegment → Prop) [DecidablePred P]
    (raw : List RawSegment) (init : Str) :
    raw.foldl (fun t w => if P w then t ++ w.text ++ [' '] else t) init
      = init ++ (((raw.filter (fun w => decide (P w))).map RawSegment.text).map
          (· ++ [' '])).flatten := by
  induction raw generalizing init with
  | nil => simp
  | cons w rest ih =>
    simp only [List.foldl_cons, List.filter_cons]
    by_cases h : P w
    · rw [if_pos h, ih]
      simp [h, List.append_assoc]
    · rw [if_neg h, ih]
      simp [h]

lemma alignDiarized_acc (raw : List RawSegment) (turns : List DiarizationTurn)
    (acc : List AlignedSegment) :
    turns.foldl (fun acc turn =>
      if pyStrip (turnText raw turn) ≠ [] then
        acc ++ [{ start := format_timestamp turn.start, stop := format_timestamp turn.stop,
                  speaker := turn.speaker, text := pyStrip (turnText raw turn) }]
      else acc) acc
    = acc ++ alignDiarized raw turns := by
  induction turns generalizing acc with
  | nil => simp [alignDiarized]
  | cons turn rest ih =>
    rw [alignDiarized]
    simp only [List.foldl_cons]
    rw [ih, ih]
    by_cases h : pyStrip (turnText raw turn) ≠ [] <;> simp [h, List.append_assoc]

lemma alignDiarized_cons (raw : List RawSegment) (turn : DiarizationTurn)
    (turns : List DiarizationTurn) :
    alignDiarized raw (turn :: turns)
      = (if pyStrip (turnText raw turn) ≠ [] then
          [{ start := format_timestamp turn.start, stop := format_timestamp turn.stop,
             speaker := turn.speaker, text := pyStrip (turnText raw turn) }]
         else []) ++ alignDiarized raw turns := by
  rw [alignDiarized]
  simp only [List.foldl_cons]
  rw [alignDiarized_acc]
  by_cases h : pyStrip (turnText raw turn) ≠ [] <;> simp [h]

lemma turnText_strip (raw : List RawSegment) (turn : DiarizationTurn) :
    pyStrip (turnText raw turn)
      = pyStrip (specSpaceJoin ((raw.filter (fun w =>
          decide (turn.start ≤ w.start ∧ w.stop ≤ turn.stop))).map RawSegment.text)) := by
  rw [turnText,
    foldl_text_accum (fun w => turn.start ≤ w.start ∧ w.stop ≤ turn.stop) raw []]
  simp only [List.nil_append]
  exact pyStrip_flatten_map_space _

/-- The per-turn output demanded by the amended C1: the stripped
space-joined concatenation of the contained texts, or nothing when that
strips to the empty string. -/
def diarizedTurnOutput (raw : List RawSegment) (turn : DiarizationTurn) :
    Option AlignedSegment :=
  if pyStrip (specSpaceJoin ((raw.filter (fun w =>
      decide (turn.start ≤ w.start ∧ w.stop ≤ turn.stop))).map RawSegment.text)) ≠ [] then
    some { start := format_timestamp turn.start,
           stop := format_timestamp turn.stop,
           speaker := turn.speaker,
           text := pyStrip (specSpaceJoin ((raw.filter (fun w =>
             decide (turn.start ≤ w.start ∧ w.stop ≤ turn.stop))).map RawSegment.text)) }
  else none

/-- C1 (amended): the diarized aligner emits, for each diarization turn, at
most one `AlignedSegment`, whose text is the whitespace-stripped
space-joined concatenation of the texts of the Whisper segments fully
contained in the turn, in input (time) order, timestamped with the
formatted turn bounds; a turn is dropped exactly when that concatenation
strips to the empty string. -/
theorem alignDiarized_characterization (raw : List RawSegment)
    (turns : List DiarizationTurn) :
    alignDiarized raw turns = turns.filterMap (diarizedTurnOutput raw) := by
  induction turns with
  | nil => rfl
  | cons turn rest ih =>
    rw [alignDiarized_cons, ih, turnText_strip, List.filterMap_cons]
    by_cases h : pyStrip (specSpaceJoin ((raw.filter (fun w =>
        decide (turn.start ≤ w.start ∧ w.stop ≤ turn.stop))).map RawSegment.text)) = []
    · rw [show diarizedTurnOutput raw turn = none from if_neg (not_not_intro h),
        if_neg (not_not_intro h)]
      simp
    · rw [show diarizedTurnOutput raw turn = some
          { start := format_timestamp turn.start, stop := format_timestamp turn.stop,
            speaker := turn.speaker,
            text := pyStrip (specSpaceJoin ((raw.filter (fun w =>
              decide (turn.start ≤ w.start ∧ w.stop ≤ turn.stop))).map RawSegment.text)) }
          from if_pos h, if_pos h]
      simp

/-- C1 counterexample: with a single Whisper segment whose text carries a
leading space (as Whisper segments do) fully contained in a single turn,
the emitted text is the stripped text, not the space-joined concatenation
of the claim. -/
theorem alignDiarized_spacejoin_counterexample :
    (alignDiarized [⟨0, 1, " a".toList⟩] [⟨0, 2, "S".toList⟩]).map AlignedSegment.text
        = ["a".toList]
    ∧ specSpaceJoin [" a".toList] = " a".toList
    ∧ "a".toList ≠ " a".toList := by
  refine ⟨?_, by decide, by decide⟩
  decide

/-- Prompt template `clean` of `_build_prompt` (`src/llm_processor.py`). -/
def cleanTemplate (transcript : Str) : Str :=
  "Clean up and correct this transcript. Fix grammar, punctuation, and formatting errors while preserving the original meaning and language.\n\nTranscript:\n".toList
  ++ transcript
  ++ "\n\nProvide only the cleaned transcript without any additional commentary.".toList

/-- Prompt template `summary` of `_build_prompt`. -/
def summaryTemplate (transcript : Str) : Str :=
  "Create a concise summary of this transcript. Include:\n- Main topics discussed\n- Key points and decisions\n- Action items (if any)\n\nTranscript:\n".toList
  ++ transcript
  ++ "\n\nProvide a well-structured summary.".toList

/-- Prompt template `translate_en` of `_build_prompt`. -/
def translateEnTemplate (transcript : Str) : Str :=
  "Translate this transcript to English. Maintain the original meaning and context.\n\nTranscript:\n".toList
  ++ transcript
  ++ "\n\nProvide only the English translation.".toList

/-- Prompt template `translate_ja` of `_build_prompt`. -/
def translateJaTemplate (transcript : Str) : Str :=
  "Translate this transcript to Japanese. Maintain the original meaning and context.\n\nTranscript:\n".toList
  ++ transcript
  ++ "\n\nProvide only the Japanese translation.".toList

/-- Prompt template `detailed` of `_build_prompt`. -/
def detailedTemplate (transcript : Str) : Str :=
  "Analyze this transcript and provide:\n1. Cleaned and corrected version\n2. Summary of main points\n3. Key insights or takeaways\n4. Identified speakers and their roles (if discernible)\n\nTranscript:\n".toList
  ++ transcript
  ++ "\n\nProvide a comprehensive analysis.".toList

/-- Prompt template `meeting_notes` of `_build_prompt`. -/
def meetingNotesTemplate (transcript : Str) : Str :=
  "Convert this transcript into professional meeting notes with:\n- Date/Time (if mentioned)\n- Attendees (if identifiable)\n- Agenda items discussed\n- Decisions made\n- Action items with owners\n- Next steps\n\nTranscript:\n".toList
  ++ transcript
  ++ "\n\nFormat as professional meeting minutes.".toList

/-- `LLMProcessor._build_prompt` (`src/llm_processor.py` lines 72-131):
`templates.get(template, templates["clean"])` — an unrecognized template
name falls back to the clean-up template. The `language` parameter is
accepted but not used by the Python body. -/
def build_prompt (transcript : Str) (template : Str) (language : Str) : Str :=
  if template = "clean".toList then cleanTemplate transcript
  else if template = "summary".toList then summaryTemplate transcript
  else if template = "translate_en".toList then translateEnTemplate transcript
  else if template = "translate_ja".toList then translateJaTemplate transcript
  else if template = "detailed".toList then detailedTemplate transcript
  else if template = "meeting_notes".toList then meetingNotesTemplate transcript
  else cleanTemplate transcript

/-- LLM gateway state (`LLMProcessor.__init__` plus the externally assigned
`template` attribute). The selected backend client is an external service;
`gen` is its behavior on one generation call: the produced text, or the
exception it raises (`_process_openai` / `_process_gemini` /
`_process_claude` / `_process_ollama` all reduce to one client call). -/
structure LLMProcessor where
  provider : Str
  api_key : Option Str := none
  model : Option Str := none
  template : Str := "clean".toList
  gen : Str → Except Str Str

/-- The backend identifiers that `process` dispatches on. -/
def knownProviders : List Str :=
  ["openai".toList, "gemini".toList, "claude".toList, "ollama".toList]

/-- `LLMProcessor.process` (`src/llm_processor.py` lines 52-70). Returns the
result together with the list of diagnostic prints (the observable side
effects): provider `none` returns `None` immediately; otherwise the prompt
is built and the dispatch runs under `try`, whose `except` prints one
diagnostic and returns `None`; a provider matching no branch falls off the
`if`/`elif` chain and returns `None` implicitly. -/
def LLMProcessor.process (p : LLMProcessor) (transcript : Str) (template : Str)
    (language : Str) : Option Str × List Str :=
  if p.provider = "none".toList then (none, [])
  else if p.provider ∈ knownProviders then
    match p.gen (build_prompt transcript template language) with
    | .ok text => (some text, [])
    | .error e =>
      (none, ["Error processing with ".toList ++ p.provider ++ ": ".toList ++ e])
  else (none, [])

/-- C4: `process` is total — it always returns (formalized by its pairing of
result and print log); on backend `none` it returns `None` with no side
effect; a backend failure during generation is converted to `None` (with
only a diagnostic print); and a non-`None` result can only arise from a
successful generation call on a known backend. -/
theorem llm_process_never_raises (p : LLMProcessor)
    (transcript template language : Str) :
    (p.provider = "none".toList →
        p.process transcript template language = (none, []))
    ∧ (∀ e, p.gen (build_prompt transcript template language) = .error e →
        (p.process transcript template language).1 = none)
    ∧ (∀ t, (p.process transcript template language).1 = some t →
        p.gen (build_prompt transcript template language) = .ok t
        ∧ p.provider ∈ knownProviders ∧ p.provider ≠ "none".toList) := by
  refine ⟨fun h => by rw [LLMProcessor.process, if_pos h], ?_, ?_⟩
  · intro e he
    by_cases h0 : p.provider = "none".toList
    · rw [LLMProcessor.process, if_pos h0]
    · rw [LLMProcessor.process, if_neg h0]
      by_cases hk : p.provider ∈ knownProviders
      · rw [if_pos hk, he]
      · rw [if_neg hk]
  · intro t ht
    by_cases h0 : p.provider = "none".toList
    · rw [LLMProcessor.process, if_pos h0] at ht
      exact absurd ht (by simp)
    · rw [LLMProcessor.process, if_neg h0] at ht
      by_cases hk : p.provider ∈ knownProviders
      · refine ⟨?_, hk, h0⟩
        rw [if_pos hk] at ht
        cases hg : p.gen (build_prompt transcript template language) with
        | ok text =>
          rw [hg] at ht
          have htt : text = t := by simpa using ht
          rw [htt]
        | error e => rw [hg] at ht; simp at ht
      · rw [if_neg hk] at ht
        simp at ht

/-- Witness for C4: a `none`-backend gateway returns `None` with an empty
effect list, and an `openai`-backend gateway whose generation call raises
returns `None`. -/
theorem llm_process_never_raises_witness :
    (LLMProcessor.process
        ⟨"none".toList, none, none, "clean".toList, fun _ => Except.ok "x".toList⟩
        "t".toList "clean".toList "auto".toList = (none, []))
    ∧ (LLMProcessor.process
        ⟨"openai".toList, none, none, "clean".toList, fun _ => Except.error "boom".toList⟩
        "t".toList "clean".toList "auto".toList).1 = none :=
  ⟨(llm_process_never_raises
      ⟨"none".toList, none, none, "clean".toList, fun _ => Except.ok "x".toList⟩
      "t".toList "clean".toList "auto".toList).1 rfl,
   (llm_process_never_raises
      ⟨"openai".toList, none, none, "clean".toList, fun _ => Except.error "boom".toList⟩
      "t".toList "clean".toList "auto".toList).2.1 "boom".toList rfl⟩

/-- Witness for C9 at the concrete input named by the claim: 59.9 seconds
renders as `00:00:59` (truncated, not rounded to `00:01:00`). -/
theorem format_timestamp_truncates_witness :
    0 ≤ (59.9 : ℚ) ∧ format_timestamp (59.9 : ℚ) = "00:00:59".toList := by
  constructor
  · norm_num
  · rw [format_timestamp_truncates (59.9 : ℚ) (by norm_num)]
    have h1 : ⌊(59.9 : ℚ)⌋ = 59 := by norm_num
    rw [h1]
    decide

/-- One batch item as the controller loop of `main`
(`src/batch_processor.py` lines 403-420) sees it: whether
`os.path.exists(video_path)` holds, and whether `process_video` returns
`True` when invoked (`process_video` catches its own exceptions and
returns a bool, so the loop observes only a boolean). -/
structure BatchItem where
  pathExists : Bool
  processOk : Bool
deriving DecidableEq, Repr

/-- The counting loop of `main`, accumulating
(successful, failed, 1-based indices of items for which `process_video`
was invoked at all): a missing path increments `failed` and `continue`s
without touching the pipeline. -/
def batchLoopFrom (idx : ℕ) : List BatchItem → ℕ × ℕ × List ℕ
  | [] => (0, 0, [])
  | item :: rest =>
    let r := batchLoopFrom (idx + 1) rest
    if !item.pathExists then (r.1, r.2.1 + 1, r.2.2)
    else if item.processOk then (r.1 + 1, r.2.1, idx :: r.2.2)
    else (r.1, r.2.1 + 1, idx :: r.2.2)

/-- The whole run: `enumerate(video_files, 1)`. -/
def batchRun (items : List BatchItem) : ℕ × ℕ × List ℕ :=
  batchLoopFrom 1 items

/-- `sys.exit(0 if failed == 0 else 1)`. -/
def batchExitCode (items : List BatchItem) : ℕ :=
  if (batchRun items).2.1 = 0 then 0 else 1

lemma batchLoopFrom_spec (items : List BatchItem) (idx : ℕ) :
    batchLoopFrom idx items
      = ((items.filter (fun it => it.pathExists && it.processOk)).length,
         (items.filter (fun it => !it.pathExists || !it.processOk)).length,
         (items.enumFrom idx).filterMap (fun p =>
            if p.2.pathExists then some p.1 else none)) := by
  induction items generalizing idx with
  | nil => rfl
  | cons it rest ih =>
    simp only [batchLoopFrom, ih, List.filter_cons, List.enumFrom, List.filterMap_cons]
    by_cases h1 : it.pathExists <;> by_cases h2 : it.processOk <;> simp [h1, h2]

lemma length_filter_add_length_filter_not {α : Type} (p : α → Bool) (l : List α) :
    (l.filter p).length + (l.filter (fun a => !p a)).length = l.length := by
  induction l with
  | nil => rfl
  | cons x rest ih =>
    by_cases h : p x <;> simp [List.filter_cons, h, ← ih] <;> omega

/-- C5: over any item list, succeeded + failed equals the number of items
(every item is processed, a failure never stops the loop); failed counts
exactly the items whose file is missing or whose processing returned
False; an item with a missing input file is never attempted (its index is
absent from the list of invocations of `process_video`); and the exit
status is 0 exactly when failed = 0. -/
theorem batch_controller_counts (items : List BatchItem) :
    (batchRun items).1 + (batchRun items).2.1 = items.length
    ∧ (batchRun items).1 = (items.filter (fun it => it.pathExists && it.processOk)).length
    ∧ (batchRun items).2.1
        = (items.filter (fun it => !it.pathExists || !it.processOk)).length
    ∧ (batchRun items).2.2 = (items.enumFrom 1).filterMap (fun p =>
        if p.2.pathExists then some p.1 else none)
    ∧ (batchExitCode items = 0 ↔ (batchRun items).2.1 = 0) := by
  have h := batchLoopFrom_spec items 1
  have hsum : (batchRun items).1 + (batchRun items).2.1 = items.length := by
    rw [batchRun, h]
    have hfe : (items.filter (fun it => !it.pathExists || !it.processOk))
        = (items.filter (fun a => !(a.pathExists && a.processOk))) := by
      congr 1
      funext a
      rw [Bool.not_and]
    simp only []
    rw [hfe]
    exact length_filter_add_length_filter_not _ items
  refine ⟨hsum, by rw [batchRun, h], by rw [batchRun, h], by rw [batchRun, h], ?_⟩
  rw [batchExitCode]
  by_cases hf : (batchRun items).2.1 = 0 <;> simp [hf]

/-- The separator line of 80 `=` characters used by `format_txt`. -/
def eqSep : Str := List.replicate 80 '='

/-- One segment line of the full-detail format:
`f"[{segment['start']} -> {segment['end']}] {segment['speaker']}: {segment['text']}"`. -/
def segmentLine (s : AlignedSegment) : Str :=
  '[' :: (s.start ++ " -> ".toList ++ s.stop ++ "] ".toList
    ++ s.speaker ++ ": ".toList ++ s.text)

/-- The `output` list built by `TranscriptFormatter.format_txt`
(`src/transcript_formatter.py` lines 7-28): header lines, a separator
block, one line per segment, the `FULL TRANSCRIPT:` trailer. -/
def formatLines (language duration : Str) (segments : List AlignedSegment)
    (full_text : Str) : List Str :=
  ["Detected Language: ".toList ++ language,
   "Total Duration: ".toList ++ duration,
   [],
   "TRANSCRIPT WITH SPEAKERS:".toList,
   eqSep,
   []]
  ++ segments.map segmentLine
  ++ [[],
      eqSep,
      "FULL TRANSCRIPT:".toList,
      eqSep,
      [],
      full_text]

/-- `TranscriptFormatter.format_txt`: `"\n".join(output)`. The
`video_filename` parameter exists in the Python signature but is unused by
the body. -/
def format_txt (video_filename language duration : Str)
    (segments : List AlignedSegment) (full_text : Str) : Str :=
  List.intercalate ['\n'] (formatLines language duration segments full_text)

/-- Characters matched by the `[\d:]` class of the segment regex. -/
def isDigitColon (c : Char) : Bool := c.isDigit || c = ':'

/-- The regex match
`re.match(r'\[([\d:]+) -> ([\d:]+)\] ([^:]+): (.+)', line)` of
`_parse_transcript`, returning the four captured groups. `re.match`
anchors at the start only, and `.` does not cross a newline, so the final
group is the longest newline-free tail. The scan below is the regex
backtracking collapsed to its unique deterministic run: each quantified
class excludes the character the pattern requires next, so the maximal
(greedy) class match is the only possible one. -/
def parseSegmentLine (line : Str) : Option (Str × Str × Str × Str) :=
  match line with
  | '[' :: r1 =>
    let ts1 := r1.takeWhile isDigitColon
    if ts1 = [] then none
    else
      match r1.dropWhile isDigitColon with
      | ' ' :: '-' :: '>' :: ' ' :: r3 =>
        let ts2 := r3.takeWhile isDigitColon
        if ts2 = [] then none
        else
          match r3.dropWhile isDigitColon with
          | ']' :: ' ' :: r5 =>
            let speaker := r5.takeWhile (fun c => c ≠ ':')
            if speaker = [] then none
            else
              match r5.dropWhile (fun c => c ≠ ':') with
              | ':' :: ' ' :: tx =>
                let text := tx.takeWhile (fun c => c ≠ '\n')
                if text = [] then none else some (ts1, ts2, speaker, text)
              | _ => none
          | _ => none
      | _ => none
  | _ => none

/-- The record `_parse_transcript` builds for one transcript file
(search side). Parsed segments reuse `AlignedSegment` — they carry the
same four string fields. -/
structure TranscriptRecord where
  file_name : Str
  language : Str
  segments : List AlignedSegment
  full_text : Str
  embedding : Option (List ℚ) := none
deriving DecidableEq, Repr

/-- Loop state of the line scan in `_parse_transcript`: the accumulated
segments, the accumulated `full_text`, and the `in_segments` flag. -/
structure ParseState where
  segments : List AlignedSegment
  full_text : Str
  in_segments : Bool
deriving DecidableEq, Repr

/-- One iteration of the line loop of `_parse_transcript`
(`src/search_engine.py` lines 91-107). The first branch fires on
`line.startswith("[") and "->" in line and "]" in line`, appends a segment
(text stripped) when the regex matches, and extends `full_text`; the
second branch clears `in_segments` on a `FULL TRANSCRIPT:` marker line;
the third would extend `full_text` from free lines, but `in_segments`
starts `False` and no statement ever sets it `True`, so it never fires. -/
def parseLine (st : ParseState) (line : Str) : ParseState :=
  if "[".toList.isPrefixOf line ∧ isSubstring "->".toList line = true
      ∧ isSubstring "]".toList line = true then
    match parseSegmentLine line with
    | some g =>
      { st with
        segments := st.segments ++ [⟨g.1, g.2.1, g.2.2.1, pyStrip g.2.2.2⟩],
        full_text := st.full_text ++ pyStrip g.2.2.2 ++ [' '] }
    | none => st
  else if isSubstring "FULL TRANSCRIPT:".toList line = true then
    { st with in_segments := false }
  else if st.in_segments = true ∧ pyStrip line ≠ [] then
    { st with full_text := st.full_text ++ pyStrip line ++ [' '] }
  else st

/-- Python `content.split("FULL TRANSCRIPT:")[-1]`: the suffix after the
last (left-to-right, non-overlapping) occurrence of the marker, or the
whole string if the marker does not occur. -/
def afterLastMarker (pat : Str) : Str → Str
  | [] => []
  | c :: rest =>
    if h : pat ≠ [] ∧ pat.isPrefixOf (c :: rest) = true then
      afterLastMarker pat ((c :: rest).drop pat.length)
    else if isSubstring pat rest = true then afterLastMarker pat rest
    else c :: rest
termination_by l => l.length
decreasing_by
  · have hp : 0 < pat.length := List.length_pos.mpr h.1
    simp
    omega
  · simp

/-- `TranscriptSearchEngine._parse_transcript`
(`src/search_engine.py` lines 75-119): split on newlines, take the
detected language from the first `Detected Language:` header line
(`line.split(":", 1)[1].strip()`), run the line loop, and if no segment
line matched but the content has a `FULL TRANSCRIPT:` marker, take
everything after the last marker as the full text. The stored `full_text`
is stripped. The `file_name` (derived in Python from the path by
`Path(...).stem.replace('_transcript', '')`) is path handling the
specification treats as an external collaborator, so it is a parameter
here. -/
def parse_transcript (content : Str) (file_name : Str) : TranscriptRecord :=
  let lines := content.splitOn '\n'
  let language :=
    match lines.find? (fun line => "Detected Language:".toList.isPrefixOf line) with
    | some line => pyStrip ((line.dropWhile (fun c => c ≠ ':')).tail)
    | none => "unknown".toList
  let st := lines.foldl parseLine ⟨[], [], false⟩
  let full_text :=
    if st.segments = [] ∧ isSubstring "FULL TRANSCRIPT:".toList content = true then
      pyStrip (afterLastMarker "FULL TRANSCRIPT:".toList content)
    else st.full_text
  { file_name := file_name, language := language, segments := st.segments,
    full_text := pyStrip full_text }

lemma takeWhile_append_stop (p : Char → Bool) (x : Str) (c : Char) (y : Str)
    (hx : ∀ a ∈ x, p a = true) (hc : p c = false) :
    (x ++ c :: y).takeWhile p = x ∧ (x ++ c :: y).dropWhile p = c :: y := by
  induction x with
  | nil => simp [List.takeWhile_cons, List.dropWhile_cons, hc]
  | cons a rest ih =>
    have ha : p a = true := hx a (by simp)
    have ih2 := ih (fun b hb => hx b (by simp [hb]))
    simp [List.takeWhile_cons, List.dropWhile_cons, ha, ih2.1, ih2.2]

lemma takeWhile_all (p : Char → Bool) (l : Str) (h : ∀ a ∈ l, p a = true) :
    l.takeWhile p = l := by
  induction l with
  | nil => rfl
  | cons a rest ih =>
    simp [List.takeWhile_cons, h a (by simp), ih (fun b hb => h b (by simp [hb]))]

lemma parseSegmentLine_format (s : AlignedSegment)
    (h1 : s.start ≠ []) (h1d : ∀ c ∈ s.start, isDigitColon c = true)
    (h2 : s.stop ≠ []) (h2d : ∀ c ∈ s.stop, isDigitColon c = true)
    (h3 : s.speaker ≠ []) (h3c : ∀ c ∈ s.speaker, c ≠ ':')
    (h4 : s.text ≠ []) (h4n : ∀ c ∈ s.text, c ≠ '\n') :
    parseSegmentLine (segmentLine s) = some (s.start, s.stop, s.speaker, s.text) := by
  have hR : segmentLine s = '[' :: (s.start ++ ' ' ::
      ('-' :: '>' :: ' ' :: (s.stop ++ ']' :: ' ' ::
        (s.speaker ++ ':' :: ' ' :: s.text)))) := by
    rw [segmentLine]
    simp
  have hscan1 := takeWhile_append_stop isDigitColon s.start ' '
      ('-' :: '>' :: ' ' :: (s.stop ++ ']' :: ' ' :: (s.speaker ++ ':' :: ' ' :: s.text)))
      h1d (by decide)
  have hscan2 := takeWhile_append_stop isDigitColon s.stop ']'
      (' ' :: (s.speaker ++ ':' :: ' ' :: s.text)) h2d (by decide)
  have hscan3 := takeWhile_append_stop (fun c => decide (c ≠ ':')) s.speaker ':'
      (' ' :: s.text) (fun a ha => by simpa using h3c a ha) (by decide)
  have htext := takeWhile_all (fun c => decide (c ≠ '\n')) s.text
      (fun a ha => by simpa using h4n a ha)
  rw [hR]
  simp only [parseSegmentLine]
  rw [hscan1.1, hscan1.2]
  simp only [if_neg h1]
  rw [hscan2.1, hscan2.2]
  simp only [if_neg h2]
  rw [hscan3.1, hscan3.2]
  simp only [if_neg h3]
  rw [htext]
  simp only [if_neg h4]

lemma dropWhile_idem (p : Char → Bool) (l : Str) :
    (l.dropWhile p).dropWhile p = l.dropWhile p := by
  induction l with
  | nil => rfl
  | cons a rest ih =>
    by_cases h : p a = true
    · simp [List.dropWhile_cons, h, ih]
    · simp [List.dropWhile_cons, h]

lemma dropRightSpaces_idem (l : Str) :
    dropRightSpaces (dropRightSpaces l) = dropRightSpaces l := by
  simp [dropRightSpaces, dropWhile_idem]

lemma dropWhile_eq_self_of_dropWhile_eq_self (p : Char → Bool) (l : Str)
    (h : l.dropWhile p = l) : (dropRightSpaces l).dropWhile p = dropRightSpaces l := by
  have hpre : dropRightSpaces l <+: l := by
    have h0 : (l.reverse.dropWhile isPySpace).reverse <+: l.reverse.reverse :=
      List.reverse_prefix.mpr (List.dropWhile_suffix isPySpace)
    rw [List.reverse_reverse] at h0
    exact h0
  cases l with
  | nil => simp [dropRightSpaces]
  | cons a rest =>
    have ha : p a = false := by
      by_contra hcon
      have ha' : p a = true := by
        cases hh : p a
        · exact absurd hh hcon
        · rfl
      rw [List.dropWhile_cons, if_pos ha'] at h
      have hlen : (rest.dropWhile p).length ≤ rest.length :=
        (List.dropWhile_suffix p).length_le
      have := congrArg List.length h
      simp at this
      omega
    obtain ⟨tail, htail⟩ := hpre
    cases hd : dropRightSpaces (a :: rest) with
    | nil => rfl
    | cons b z =>
      rw [hd] at htail
      have hab : b = a := by
        simpa using congrArg (fun l => l.headI) htail
      rw [List.dropWhile_cons, hab, ha]
      simp

lemma pyStrip_idem (l : Str) : pyStrip (pyStrip l) = pyStrip l := by
  rw [pyStrip, pyStrip,
    dropWhile_eq_self_of_dropWhile_eq_self isPySpace _ (dropWhile_idem isPySpace l),
    dropRightSpaces_idem]

/-- The segments contributed by the lines of a transcript file: one per
line that passes the bracket pre-check and matches the segment regex,
with the captured text stripped. -/
def matchedSegments (lines : List Str) : List AlignedSegment :=
  lines.filterMap (fun line =>
    if "[".toList.isPrefixOf line ∧ isSubstring "->".toList line = true
        ∧ isSubstring "]".toList line = true then
      (parseSegmentLine line).map (fun g =>
        (⟨g.1, g.2.1, g.2.2.1, pyStrip g.2.2.2⟩ : AlignedSegment))
    else none)

lemma foldl_parseLine_spec (lines : List Str) (segs0 : List AlignedSegment)
    (ft0 : Str) :
    lines.foldl parseLine ⟨segs0, ft0, false⟩
      = ⟨segs0 ++ matchedSegments lines,
         ft0 ++ ((matchedSegments lines).map (fun s => s.text ++ [' '])).flatten,
         false⟩ := by
  induction lines generalizing segs0 ft0 with
  | nil => simp [matchedSegments]
  | cons line rest ih =>
    rw [List.foldl_cons]
    by_cases hb : "[".toList.isPrefixOf line ∧ isSubstring "->".toList line = true
        ∧ isSubstring "]".toList line = true
    · cases hp : parseSegmentLine line with
      | some g =>
        have hstep : parseLine ⟨segs0, ft0, false⟩ line
            = ⟨segs0 ++ [⟨g.1, g.2.1, g.2.2.1, pyStrip g.2.2.2⟩],
               ft0 ++ pyStrip g.2.2.2 ++ [' '], false⟩ := by
          rw [parseLine, if_pos hb, hp]
        have hms : matchedSegments (line :: rest)
            = ⟨g.1, g.2.1, g.2.2.1, pyStrip g.2.2.2⟩ :: matchedSegments rest := by
          rw [matchedSegments, List.filterMap_cons, if_pos hb, hp]
          rfl
        rw [hstep, ih, hms]
        simp [List.append_assoc]
      | none =>
        have hstep : parseLine ⟨segs0, ft0, false⟩ line = ⟨segs0, ft0, false⟩ := by
          rw [parseLine, if_pos hb, hp]
        have hms : matchedSegments (line :: rest) = matchedSegments rest := by
          rw [matchedSegments, List.filterMap_cons, if_pos hb, hp]
          rfl
        rw [hstep, ih, hms]
    · have hstep : parseLine ⟨segs0, ft0, false⟩ line = ⟨segs0, ft0, false⟩ := by
        rw [parseLine, if_neg hb]
        by_cases hm : isSubstring "FULL TRANSCRIPT:".toList line = true
        · rw [if_pos hm]
        · rw [if_neg hm, if_neg (by simp)]
      have hms : matchedSegments (line :: rest) = matchedSegments rest := by
        rw [matchedSegments, List.filterMap_cons, if_neg hb]
        rfl
      rw [hstep, ih, hms]

lemma flatten_texts_eq (segs : List AlignedSegment) :
    pyStrip ((segs.map (fun s => s.text ++ [' '])).flatten)
      = pyStrip (specSpaceJoin (segs.map AlignedSegment.text)) := by
  have hcomp : (fun s : AlignedSegment => s.text ++ [' '])
      = ((fun x => x ++ [' ']) ∘ AlignedSegment.text) := rfl
  rw [hcomp, ← List.map_map]
  exact pyStrip_flatten_map_space _

/-- C7 (amended): the parser takes the detected language from the first
`Detected Language:` header line; it produces exactly one segment per line
matching the `[start -> end] speaker: text` pattern (text stripped); every
other line is ignored — the `in_segments` flag that would route free lines
into the full text is initialized `False` and never set, so unrecognized
lines contribute nothing to the record; the record full text is the
space-joined stripped segment texts when at least one segment line
matched, everything after the last `FULL TRANSCRIPT:` marker when none
matched but the marker occurs (so a file with no segment lines but a
full-text section still yields a valid record with an empty segment
sequence), and empty otherwise. -/
theorem parse_transcript_characterization (content : Str) (fname : Str) :
    (parse_transcript content fname).segments = matchedSegments (content.splitOn '\n')
    ∧ (parse_transcript content fname).language
        = (match (content.splitOn '\n').find?
              (fun line => "Detected Language:".toList.isPrefixOf line) with
           | some line => pyStrip ((line.dropWhile (fun c => c ≠ ':')).tail)
           | none => "unknown".toList)
    ∧ (parse_transcript content fname).full_text
        = (if matchedSegments (content.splitOn '\n') = [] then
             (if isSubstring "FULL TRANSCRIPT:".toList content = true then
               pyStrip (afterLastMarker "FULL TRANSCRIPT:".toList content)
              else [])
           else pyStrip (specSpaceJoin
             ((matchedSegments (content.splitOn '\n')).map AlignedSegment.text)))
    ∧ (parse_transcript content fname).file_name = fname := by
  have hfold := foldl_parseLine_spec (content.splitOn '\n') [] []
  have hrec : parse_transcript content fname
      = { file_name := fname,
          language := (match (content.splitOn '\n').find?
              (fun line => "Detected Language:".toList.isPrefixOf line) with
            | some line => pyStrip ((line.dropWhile (fun c => c ≠ ':')).tail)
            | none => "unknown".toList),
          segments := matchedSegments (content.splitOn '\n'),
          full_text := pyStrip
            (if matchedSegments (content.splitOn '\n') = []
                ∧ isSubstring "FULL TRANSCRIPT:".toList content = true then
              pyStrip (afterLastMarker "FULL TRANSCRIPT:".toList content)
             else ((matchedSegments (content.splitOn '\n')).map
               (fun s => s.text ++ [' '])).flatten) } := by
    rw [parse_transcript]
    simp only [hfold, List.nil_append]
  have hft : (parse_transcript content fname).full_text
      = (if matchedSegments (content.splitOn '\n') = [] then
           (if isSubstring "FULL TRANSCRIPT:".toList content = true then
             pyStrip (afterLastMarker "FULL TRANSCRIPT:".toList content)
            else [])
         else pyStrip (specSpaceJoin
           ((matchedSegments (content.splitOn '\n')).map AlignedSegment.text))) := by
    rw [hrec]
    by_cases hempty : matchedSegments (content.splitOn '\n') = []
    · by_cases hmark : isSubstring "FULL TRANSCRIPT:".toList content = true
      · rw [if_pos ⟨hempty, hmark⟩, if_pos hempty, if_pos hmark, pyStrip_idem]
      · rw [if_neg (fun hc => hmark hc.2), if_pos hempty, if_neg hmark, hempty]
        rfl
    · rw [if_neg (fun hc => hempty hc.1), if_neg hempty]
      exact flatten_texts_eq _
  exact ⟨by rw [hrec], by rw [hrec], hft, by rw [hrec]⟩

lemma isPrefixOf_append_self (x y : Str) : x.isPrefixOf (x ++ y) = true := by
  induction x with
  | nil => simp
  | cons a r ih => simp [List.isPrefixOf, ih]

lemma isSubstring_of_here (pat l : Str) (h : pat.isPrefixOf l = true) :
    isSubstring pat l = true := by
  cases l with
  | nil => rw [isSubstring]; exact h
  | cons c rest => rw [isSubstring]; simp [h]

lemma isSubstring_cons (pat : Str) (c : Char) (l : Str)
    (h : isSubstring pat l = true) : isSubstring pat (c :: l) = true := by
  rw [isSubstring]; simp [h]

lemma isSubstring_mid (pat pre post : Str) :
    isSubstring pat (pre ++ pat ++ post) = true := by
  induction pre with
  | nil => simpa using isSubstring_of_here pat (pat ++ post) (isPrefixOf_append_self pat post)
  | cons a r ih =>
    simpa [List.cons_append] using isSubstring_cons pat a (r ++ (pat ++ post))
      (by simpa using ih)

/-- Well-formedness of one aligned segment for the full-detail round trip:
the pipeline-produced segments satisfy this (timestamps from
`format_timestamp` are digits and colons, speakers are pyannote labels,
texts are stripped by the aligner), but the formats themselves accept
arbitrary strings. -/
def WFSegment (s : AlignedSegment) : Prop :=
  s.start ≠ [] ∧ (∀ c ∈ s.start, isDigitColon c = true)
  ∧ s.stop ≠ [] ∧ (∀ c ∈ s.stop, isDigitColon c = true)
  ∧ s.speaker ≠ [] ∧ (∀ c ∈ s.speaker, c ≠ ':') ∧ (∀ c ∈ s.speaker, c ≠ '\n')
  ∧ s.text ≠ [] ∧ (∀ c ∈ s.text, c ≠ '\n') ∧ pyStrip s.text = s.text

lemma matchedSegments_segLines (segments : List AlignedSegment)
    (hsegs : ∀ s ∈ segments, WFSegment s) :
    matchedSegments (segments.map segmentLine) = segments := by
  induction segments with
  | nil => rfl
  | cons s rest ih =>
    obtain ⟨h1, h1d, h2, h2d, h3, h3c, h3n, h4, h4n, h4s⟩ := hsegs s (by simp)
    have hb : "[".toList.isPrefixOf (segmentLine s)
        ∧ isSubstring "->".toList (segmentLine s) = true
        ∧ isSubstring "]".toList (segmentLine s) = true := by
      refine ⟨?_, ?_, ?_⟩
      · simp [segmentLine, List.isPrefixOf]
      · have heq : segmentLine s = ('[' :: s.start ++ [' ']) ++ "->".toList
            ++ (' ' :: (s.stop ++ "] ".toList ++ s.speaker ++ ": ".toList ++ s.text)) := by
          rw [segmentLine]; simp
        rw [heq]; exact isSubstring_mid _ _ _
      · have heq : segmentLine s = ('[' :: s.start ++ " -> ".toList ++ s.stop)
            ++ "]".toList ++ (' ' :: (s.speaker ++ ": ".toList ++ s.text)) := by
          rw [segmentLine]; simp
        rw [heq]; exact isSubstring_mid _ _ _
    have hp := parseSegmentLine_format s h1 h1d h2 h2d h3 h3c h4 h4n
    have hseg_eta : (⟨s.start, s.stop, s.speaker, pyStrip s.text⟩ : AlignedSegment) = s := by
      rw [h4s]
    have hstep : matchedSegments (segmentLine s :: rest.map segmentLine)
        = s :: matchedSegments (rest.map segmentLine) := by
      simp only [matchedSegments, List.filterMap_cons, if_pos hb, hp,
        Option.map_some', hseg_eta]
    rw [List.map_cons, hstep, ih (fun t ht => hsegs t (by simp [ht]))]

lemma not_mem_append_char {c : Char} {l₁ l₂ : Str} (h₁ : c ∉ l₁) (h₂ : c ∉ l₂) :
    c ∉ l₁ ++ l₂ := fun h => (List.mem_append.mp h).elim h₁ h₂

lemma newline_not_mem_eqSep : '\n' ∉ eqSep := by
  intro hm
  exact absurd (List.eq_of_mem_replicate hm) (by decide)

lemma newline_not_mem_segmentLine (s : AlignedSegment) (hs : WFSegment s) :
    '\n' ∉ segmentLine s := by
  obtain ⟨h1, h1d, h2, h2d, h3, h3c, h3n, h4, h4n, h4s⟩ := hs
  have hstart : '\n' ∉ s.start := fun hm => absurd (h1d '\n' hm) (by decide)
  have hstop : '\n' ∉ s.stop := fun hm => absurd (h2d '\n' hm) (by decide)
  have hspk : '\n' ∉ s.speaker := fun hm => (h3n '\n' hm) rfl
  have htxt : '\n' ∉ s.text := fun hm => (h4n '\n' hm) rfl
  rw [segmentLine]
  intro hmem
  rcases List.mem_cons.mp hmem with h | h
  · exact absurd h (by decide)
  · simp only [List.mem_append] at h
    rcases h with (((((h | h) | h) | h) | h) | h) | h
    · exact hstart h
    · exact absurd h (by decide)
    · exact hstop h
    · exact absurd h (by decide)
    · exact hspk h
    · exact absurd h (by decide)
    · exact htxt h

lemma newline_not_mem_formatLines (language duration full_text : Str)
    (segments : List AlignedSegment)
    (hsegs : ∀ s ∈ segments, WFSegment s)
    (hlang : '\n' ∉ language) (hdur : '\n' ∉ duration) (hftn : '\n' ∉ full_text) :
    ∀ l ∈ formatLines language duration segments full_text, '\n' ∉ l := by
  intro l hl
  rw [formatLines] at hl
  rcases List.mem_append.mp hl with h | h
  · rcases List.mem_append.mp h with h | h
    · rcases List.mem_cons.mp h with rfl | h
      · exact not_mem_append_char (by decide) hlang
      rcases List.mem_cons.mp h with rfl | h
      · exact not_mem_append_char (by decide) hdur
      rcases List.mem_cons.mp h with rfl | h
      · exact List.not_mem_nil '\n'
      rcases List.mem_cons.mp h with rfl | h
      · decide
      rcases List.mem_cons.mp h with rfl | h
      · exact newline_not_mem_eqSep
      rcases List.mem_cons.mp h with rfl | h
      · exact List.not_mem_nil '\n'
      · exact absurd h (List.not_mem_nil l)
    · obtain ⟨s, hsmem, rfl⟩ := List.mem_map.mp h
      exact newline_not_mem_segmentLine s (hsegs s hsmem)
  · rcases List.mem_cons.mp h with rfl | h
    · exact List.not_mem_nil '\n'
    rcases List.mem_cons.mp h with rfl | h
    · exact newline_not_mem_eqSep
    rcases List.mem_cons.mp h with rfl | h
    · decide
    rcases List.mem_cons.mp h with rfl | h
    · exact newline_not_mem_eqSep
    rcases List.mem_cons.mp h with rfl | h
    · exact List.not_mem_nil '\n'
    rcases List.mem_cons.mp h with rfl | h
    · exact hftn
    · exact absurd h (List.not_mem_nil l)

instance : DecidablePred WFSegment := fun s => by
  unfold WFSegment
  infer_instance

/-- C2 (amended): for every Transcript whose fields are well-formed —
timestamps non-empty over digits and colons, speakers non-empty and free
of colons and newlines, texts non-empty, newline-free and already
stripped, and language, duration and full text newline-free with the full
text not starting with `[` — persisting with `format_txt` and re-parsing
with `parse_transcript` returns the segment sequence exactly: equal
segment list, hence equal segment count, equal per-segment speakers, and
equal concatenated segment text. (The unamended claim fails on segments
the formats cannot carry, e.g. an empty text: see the counterexample.) -/
theorem format_txt_roundtrip (vfn language duration full_text fname : Str)
    (segments : List AlignedSegment)
    (hsegs : ∀ s ∈ segments, WFSegment s)
    (hlang : '\n' ∉ language) (hdur : '\n' ∉ duration)
    (hftn : '\n' ∉ full_text)
    (hftb : ¬("[".toList.isPrefixOf full_text = true)) :
    (parse_transcript (format_txt vfn language duration segments full_text) fname).segments
        = segments
    ∧ (parse_transcript (format_txt vfn language duration segments full_text)
        fname).segments.length = segments.length
    ∧ (parse_transcript (format_txt vfn language duration segments full_text)
        fname).segments.map AlignedSegment.speaker = segments.map AlignedSegment.speaker
    ∧ ((parse_transcript (format_txt vfn language duration segments full_text)
        fname).segments.map AlignedSegment.text).flatten
        = (segments.map AlignedSegment.text).flatten := by
  have hmem := newline_not_mem_formatLines language duration full_text segments
    hsegs hlang hdur hftn
  have hne : formatLines language duration segments full_text ≠ [] := by
    rw [formatLines]
    simp
  have hL : (format_txt vfn language duration segments full_text).splitOn '\n'
      = formatLines language duration segments full_text := by
    rw [format_txt]
    exact List.splitOn_intercalate _ '\n' hmem hne
  have happ : ∀ (l₁ l₂ : List Str),
      matchedSegments (l₁ ++ l₂) = matchedSegments l₁ ++ matchedSegments l₂ := by
    intro l₁ l₂
    simp only [matchedSegments]
    exact List.filterMap_append l₁ l₂ _
  have hhead : matchedSegments
      ["Detected Language: ".toList ++ language,
       "Total Duration: ".toList ++ duration,
       [], "TRANSCRIPT WITH SPEAKERS:".toList, eqSep, []] = [] := rfl
  have htrail5 : matchedSegments
      [[], eqSep, "FULL TRANSCRIPT:".toList, eqSep, [], full_text]
      = matchedSegments [full_text] := rfl
  have htrail : matchedSegments
      [[], eqSep, "FULL TRANSCRIPT:".toList, eqSep, [], full_text] = [] := by
    rw [htrail5, matchedSegments, List.filterMap_cons, if_neg (fun hc => hftb hc.1)]
    rfl
  have hms : matchedSegments (formatLines language duration segments full_text)
      = segments := by
    rw [formatLines, happ, happ, hhead, htrail,
      matchedSegments_segLines segments hsegs]
    simp
  have hseg : (parse_transcript (format_txt vfn language duration segments full_text)
      fname).segments = segments := by
    rw [parse_transcript]
    simp only [hL, foldl_parseLine_spec, List.nil_append, hms]
  exact ⟨hseg, by rw [hseg], by rw [hseg], by rw [hseg]⟩

/-- A concrete well-formed two-segment transcript used by the round-trip
witness. -/
def demoSegments : List AlignedSegment :=
  [⟨"00:00:00".toList, "00:00:02".toList, "SPEAKER_00".toList, "hello".toList⟩,
   ⟨"00:00:02".toList, "00:00:05".toList, "SPEAKER_01".toList, "world".toList⟩]

/-- Witness for C2: the round trip at a concrete two-speaker transcript. -/
theorem format_txt_roundtrip_witness :
    (parse_transcript (format_txt "v".toList "en".toList "00:00:05".toList
        demoSegments "hello world".toList) "f".toList).segments = demoSegments :=
  (format_txt_roundtrip "v".toList "en".toList "00:00:05".toList
      "hello world".toList "f".toList demoSegments (by decide) (by decide)
      (by decide) (by decide) (by decide)).1

/-- C2 counterexample: a Transcript whose single segment has an empty text
(such segments arise from the fallback aligner when Whisper emits a
whitespace-only segment) does not round-trip: the regex group `(.+)`
requires a non-empty text, the line is not recognized, and the re-parsed
record has zero segments. -/
theorem format_txt_roundtrip_counterexample :
    (parse_transcript (format_txt "v".toList "en".toList "00:00:01".toList
        [⟨"00:00:00".toList, "00:00:01".toList, "SPEAKER_00".toList, []⟩] [])
        "f".toList).segments.length = 0
    ∧ ([(⟨"00:00:00".toList, "00:00:01".toList, "SPEAKER_00".toList, []⟩
        : AlignedSegment)]).length = 1 := by
  constructor
  · decide
  · rfl

/-- The file content of the C7 counterexample: a header, one segment line,
a stray unrecognized line, the marker, and trailing full text. -/
def strayContent : Str :=
  "Detected Language: en\n[00:00:00 -> 00:00:01] A: hi\nstray\nFULL TRANSCRIPT:\nworld".toList

/-- C7 counterexample: the line `stray` falls outside every recognized
pattern, yet it is NOT treated as part of the trailing full-text block —
it appears nowhere in the parsed record (whose full text is just the
segment text `hi`); the same happens to the trailing line `world`. -/
theorem parse_transcript_stray_line_counterexample :
    (parse_transcript strayContent "f".toList).segments.length = 1
    ∧ (parse_transcript strayContent "f".toList).full_text = "hi".toList
    ∧ isSubstring "stray".toList strayContent = true
    ∧ isSubstring "stray".toList (parse_transcript strayContent "f".toList).full_text
        = false
    ∧ isSubstring "world".toList (parse_transcript strayContent "f".toList).full_text
        = false := by
  refine ⟨?_, ?_, ?_, ?_, ?_⟩ <;> decide

instance : Inhabited TranscriptRecord := ⟨⟨[], [], [], [], none⟩⟩

/-- One match entry inside a search result. The Python code builds plain
dicts whose keys differ per search mode (keyword matches carry a
highlight, semantic matches a relevance score, LLM-search matches are the
raw segment dicts); one constructor per dict shape. -/
inductive MatchEntry where
  | keyword (timestamp speaker text highlight : Str) : MatchEntry
  | scored (timestamp speaker text : Str) (relevance_score : ℚ) : MatchEntry
  | rawSeg (segment : AlignedSegment) : MatchEntry
deriving DecidableEq, Repr

/-- Python `match.get('text', '')`: every dict shape carries a text key,
so the default is never used. -/
def MatchEntry.textOf : MatchEntry → Str
  | .keyword _ _ t _ => t
  | .scored _ _ t _ => t
  | .rawSeg s => s.text

/-- One element of a search results list; optional fields model the keys
present only in some search modes. -/
structure SearchResult where
  file_name : Str
  language : Str
  similarity_score : Option ℚ := none
  llm_analysis : Option Str := none
  matchList : List MatchEntry  -- Python dict key: matches
  match_count : Option ℕ := none
deriving DecidableEq, Repr

/-- `_highlight_text` (`src/search_engine.py` lines 269-276): wrap every
leftmost non-overlapping occurrence of the query in `**`, matching
case-insensitively when requested (`re.sub` with `re.IGNORECASE`). The
`fuel` argument bounds the remaining text length so the recursion is
structural; a successful match consumes `query.length ≥ 1` characters and
a miss consumes one, so `fuel = text.length` never runs out. -/
def wrapMatchesGo (query : Str) (case_sensitive : Bool) : ℕ → Str → Str
  | _, [] => []
  | 0, l => l
  | fuel + 1, c :: rest =>
    if query ≠ [] ∧ (if case_sensitive then query.isPrefixOf (c :: rest)
        else (pyLower query).isPrefixOf (pyLower (c :: rest))) = true then
      "**".toList ++ (c :: rest).take query.length ++ "**".toList
        ++ wrapMatchesGo query case_sensitive fuel ((c :: rest).drop query.length)
    else c :: wrapMatchesGo query case_sensitive fuel rest

/-- `TranscriptSearchEngine._highlight_text` as called on one segment. -/
def highlight_text (text query : Str) (case_sensitive : Bool) : Str :=
  wrapMatchesGo query case_sensitive text.length text

/-- The match list `keyword_search` collects for one record
(`src/search_engine.py` lines 126-152): the record's `full_text` is
tested first; only when it contains the query are the record's segments
scanned, and one match dict is appended per segment containing the query
(case folding as requested). -/
def keywordMatches (transcript : TranscriptRecord) (query : Str)
    (case_sensitive : Bool) : List MatchEntry :=
  if case_sensitive = false then
    if isSubstring (pyLower query) (pyLower transcript.full_text) = true then
      (transcript.segments.filter (fun seg =>
        isSubstring (pyLower query) (pyLower seg.text))).map (fun seg =>
          .keyword (seg.start ++ " -> ".toList ++ seg.stop) seg.speaker seg.text
            (highlight_text seg.text query case_sensitive))
    else []
  else
    if isSubstring query transcript.full_text = true then
      (transcript.segments.filter (fun seg =>
        isSubstring query seg.text)).map (fun seg =>
          .keyword (seg.start ++ " -> ".toList ++ seg.stop) seg.speaker seg.text
            (highlight_text seg.text query case_sensitive))
    else []

/-- `TranscriptSearchEngine.keyword_search` (`src/search_engine.py` lines
121-162): one result per record with a non-empty match list. -/
def keyword_search (transcripts : List TranscriptRecord) (query : Str)
    (case_sensitive : Bool) : List SearchResult :=
  transcripts.foldl (fun results transcript =>
    if keywordMatches transcript query case_sensitive ≠ [] then
      results ++ [{ file_name := transcript.file_name,
                    language := transcript.language,
                    matchList := keywordMatches transcript query case_sensitive,
                    match_count :=
                      some (keywordMatches transcript query case_sensitive).length }]
    else results) []

/-- Stable descending insertion by score: the effect of Python
`scores.sort(key=lambda x: x[1], reverse=True)` (Python sorting is stable,
and a stable sort is extensionally unique, so stable insertion models it
exactly). -/
def insertByScoreDesc {α : Type} (score : α → ℚ) (x : α) : List α → List α
  | [] => [x]
  | y :: rest =>
    if score x > score y then x :: y :: rest else y :: insertByScoreDesc score x rest

/-- Stable descending sort by score. -/
def sortByScoreDesc {α : Type} (score : α → ℚ) (l : List α) : List α :=
  l.foldl (fun acc x => insertByScoreDesc score x acc) []

/-- `_find_relevant_segments` (`src/search_engine.py` lines 240-267).
`encode` is the sentence-transformers encoder (external Embedding
Engine); `cosSim` stands for the floating-point cosine similarity
`np.dot(a, b) / (norm(a) * norm(b))` evaluated by numpy — the numeric
value is an input here, the ranking and filtering logic is what this file
verifies. The threshold literal `0.3` is `mkRat 3 10`. -/
def find_relevant_segments (encode : Str → List ℚ)
    (cosSim : List ℚ → List ℚ → ℚ) (embeddings_available : Bool)
    (transcript : TranscriptRecord) (query : Str) (top_n : ℕ) :
    List MatchEntry :=
  if embeddings_available = false then
    (transcript.segments.take top_n).map .rawSeg
  else
    (((sortByScoreDesc (fun p => p.2)
        (transcript.segments.map (fun seg =>
          (seg, cosSim (encode query) (encode seg.text))))).take top_n).filterMap
      (fun p =>
        if p.2 > mkRat 3 10 then
          some (.scored (p.1.start ++ " -> ".toList ++ p.1.stop) p.1.speaker
            p.1.text p.2)
        else none))

/-- `_embedding_search` (`src/search_engine.py` lines 174-207): score the
records that carry an embedding by cosine similarity to the query
embedding, sort descending, slice to `top_k`, keep scores above `0.3`,
and attach the per-record relevant segments. `transcripts[idx]` is total
in Python because the indices come from `enumerate`; `getD` with a
default mirrors it. -/
def embedding_search (encode : Str → List ℚ) (cosSim : List ℚ → List ℚ → ℚ)
    (transcripts : List TranscriptRecord) (embeddings_available : Bool)
    (query : Str) (top_k : ℕ) : List SearchResult :=
  ((sortByScoreDesc (fun p => p.2)
      (transcripts.enum.filterMap (fun p =>
        p.2.embedding.map (fun e => (p.1, cosSim (encode query) e))))).take
    top_k).filterMap (fun p =>
      if p.2 > mkRat 3 10 then
        some { file_name := (transcripts.getD p.1 default).file_name,
               language := (transcripts.getD p.1 default).language,
               similarity_score := some p.2,
               matchList := find_relevant_segments encode cosSim
                 embeddings_available (transcripts.getD p.1 default) query 3,
               match_count := some (find_relevant_segments encode cosSim
                 embeddings_available (transcripts.getD p.1 default) query 3).length }
      else none)

/-- The prompt of `_llm_search`, with the rendered JSON braces. -/
def llmSearchPrompt (query excerpt : Str) : Str :=
  "Analyze if this transcript is relevant to the query: \"".toList ++ query
  ++ "\"\n\nTranscript:\n".toList ++ excerpt
  ++ "...\n\nIs this transcript relevant? If yes, extract the most relevant parts that answer or relate to the query.\nRespond in JSON format:\n\x7b\"relevant\": true/false, \"relevance_score\": 0-1, \"relevant_parts\": [\"quote1\", \"quote2\"]\x7d".toList

/-- `_llm_search` (`src/search_engine.py` lines 209-238): ask the gateway,
per record, whether the record is relevant; keep records whose non-empty
response contains `true` (lowered), attaching the first three raw segment
dicts; cap at `top_k`. The surrounding `try` is dead because `process`
never raises (its own `except` converts failures to `None`). -/
def llm_search (p : LLMProcessor) (transcripts : List TranscriptRecord)
    (query : Str) (top_k : ℕ) : List SearchResult :=
  (transcripts.foldl (fun results transcript =>
    match (p.process (llmSearchPrompt query (transcript.full_text.take 2000))
        "clean".toList transcript.language).1 with
    | some response =>
      if response ≠ [] ∧ isSubstring "true".toList (pyLower response) = true then
        results ++ [{ file_name := transcript.file_name,
                      language := transcript.language,
                      llm_analysis := some response,
                      matchList := (transcript.segments.take 3).map .rawSeg }]
      else results
    | none => results) []).take top_k

/-- In-memory state of `TranscriptSearchEngine`: the optional gateway, the
indexed records, and whether sentence-transformers imported. -/
structure SearchEngine where
  llm_processor : Option LLMProcessor
  transcripts : List TranscriptRecord
  embeddings_available : Bool

/-- `semantic_search` (`src/search_engine.py` lines 164-172): embeddings
if available, else LLM relevance classification if a live gateway exists,
else keyword search (with its default `case_sensitive=False`). -/
def semantic_search (encode : Str → List ℚ) (cosSim : List ℚ → List ℚ → ℚ)
    (engine : SearchEngine) (query : Str) (top_k : ℕ) : List SearchResult :=
  if engine.embeddings_available = true then
    embedding_search encode cosSim engine.transcripts engine.embeddings_available
      query top_k
  else
    match engine.llm_processor with
    | some p =>
      if p.provider ≠ "none".toList then llm_search p engine.transcripts query top_k
      else keyword_search engine.transcripts query false
    | none => keyword_search engine.transcripts query false

/-- The fixed message returned when no gateway is active. -/
def msgNoLLM : Str :=
  "LLM is not enabled. Please enable LLM post-processing to use the Q&A feature.".toList

/-- The fixed message returned when no relevant records are found. -/
def msgNoInfo : Str :=
  "I couldn".toList ++ [Char.ofNat 39]
  ++ "t find any relevant information in the transcripts to answer your question.".toList

/-- The context block `ask_question` assembles from the relevant results. -/
def buildContext (relevant : List SearchResult) : Str :=
  relevant.foldl (fun context r =>
    context ++ "\n\nFrom ".toList ++ r.file_name ++ " (".toList ++ r.language
      ++ "):\n".toList
      ++ (r.matchList.take 3).foldl
          (fun c m => c ++ "- ".toList ++ m.textOf ++ "\n".toList) []) []

/-- The question prompt of `ask_question`. -/
def askPrompt (question context : Str) : Str :=
  "Based on the following transcript excerpts, answer this question: \"".toList
  ++ question ++ "\"\n\nTranscripts:\n".toList ++ context
  ++ "\n\nProvide a clear, concise answer based only on the information in the transcripts. If the transcripts don".toList
  ++ [Char.ofNat 39] ++ "t contain enough information to answer, say so.".toList

/-- `ask_question` (`src/search_engine.py` lines 278-308). The final
branch returns `answer` — the raw result of `process`, which is `None`
whenever the generation call failed; the `except` branch that would
return an error string is unreachable because `process` never raises. -/
def ask_question (encode : Str → List ℚ) (cosSim : List ℚ → List ℚ → ℚ)
    (engine : SearchEngine) (question : Str) : Option Str :=
  match engine.llm_processor with
  | none => some msgNoLLM
  | some p =>
    if p.provider = "none".toList then some msgNoLLM
    else
      if semantic_search encode cosSim engine question 3 = [] then some msgNoInfo
      else
        (p.process
          (askPrompt question
            (buildContext (semantic_search encode cosSim engine question 3)))
          "clean".toList "auto".toList).1

/-- A record carrying an embedding, for the Q&A evaluation. -/
def demoEmbRecord : TranscriptRecord :=
  { file_name := "f".toList, language := "en".toList,
    segments := [⟨"00:00:00".toList, "00:00:01".toList, "S".toList, "hi".toList⟩],
    full_text := "hi".toList, embedding := some [1] }

/-- A gateway on the `openai` backend whose generation call raises. -/
def failingLLM : LLMProcessor :=
  ⟨"openai".toList, none, none, "clean".toList, fun _ => .error "rate limit".toList⟩

/-- A constant similarity oracle scoring everything 1 (above threshold). -/
def constSim : List ℚ → List ℚ → ℚ := fun _ _ => 1

/-- A constant embedding oracle. -/
def constEncode : Str → List ℚ := fun _ => [1]

/-- C6 evaluated: with no gateway the fixed enablement message is
returned; with an active gateway but no relevant record the fixed
no-information message is returned without a gateway call; but with an
active gateway, a relevant record and a failing generation call,
`ask_question` returns a bare Python `None` — not the explicit error
string its own `except` branch and `-> str` annotation promise. -/
theorem ask_question_none_divergence :
    ask_question constEncode constSim ⟨none, [], false⟩ "q".toList = some msgNoLLM
    ∧ ask_question constEncode constSim ⟨some failingLLM, [], true⟩ "q".toList
        = some msgNoInfo
    ∧ ask_question constEncode constSim ⟨some failingLLM, [demoEmbRecord], true⟩
        "q".toList = none := by
  refine ⟨rfl, ?_, ?_⟩ <;> decide

lemma mem_insertByScoreDesc {α : Type} (score : α → ℚ) (x y : α) (l : List α) :
    y ∈ insertByScoreDesc score x l ↔ y = x ∨ y ∈ l := by
  induction l with
  | nil => simp [insertByScoreDesc]
  | cons z rest ih =>
    rw [insertByScoreDesc]
    by_cases h : score x > score z
    · simp [h]
    · rw [if_neg h]
      simp only [List.mem_cons, ih]
      tauto

lemma pairwise_insertByScoreDesc {α : Type} (score : α → ℚ) (x : α) (l : List α)
    (h : List.Pairwise (fun a b => score a ≥ score b) l) :
    List.Pairwise (fun a b => score a ≥ score b) (insertByScoreDesc score x l) := by
  induction l with
  | nil => simp [insertByScoreDesc]
  | cons z rest ih =>
    rw [insertByScoreDesc]
    rcases List.pairwise_cons.mp h with ⟨hz, hrest⟩
    by_cases hgt : score x > score z
    · rw [if_pos hgt]
      refine List.pairwise_cons.mpr ⟨?_, h⟩
      intro b hb
      rcases List.mem_cons.mp hb with rfl | hb
      · exact le_of_lt hgt
      · exact le_trans (hz b hb) (le_of_lt hgt)
    · rw [if_neg hgt]
      refine List.pairwise_cons.mpr ⟨?_, ih hrest⟩
      intro b hb
      rcases (mem_insertByScoreDesc score x b rest).mp hb with rfl | hb
      · exact le_of_not_lt hgt
      · exact hz b hb

lemma mem_sortByScoreDesc {α : Type} (score : α → ℚ) (l : List α) (y : α) :
    y ∈ sortByScoreDesc score l ↔ y ∈ l := by
  suffices h : ∀ acc, (y ∈ l.foldl (fun acc x => insertByScoreDesc score x acc) acc
      ↔ y ∈ acc ∨ y ∈ l) by
    rw [sortByScoreDesc]
    simpa using h []
  induction l with
  | nil => intro acc; simp
  | cons z rest ih =>
    intro acc
    rw [List.foldl_cons, ih (insertByScoreDesc score z acc)]
    simp only [mem_insertByScoreDesc, List.mem_cons]
    tauto

lemma pairwise_sortByScoreDesc {α : Type} (score : α → ℚ) (l : List α) :
    List.Pairwise (fun a b => score a ≥ score b) (sortByScoreDesc score l) := by
  suffices h : ∀ acc, List.Pairwise (fun a b => score a ≥ score b) acc →
      List.Pairwise (fun a b => score a ≥ score b)
        (l.foldl (fun acc x => insertByScoreDesc score x acc) acc) by
    exact h [] (by simp)
  induction l with
  | nil => intro acc hacc; simpa
  | cons z rest ih =>
    intro acc hacc
    rw [List.foldl_cons]
    exact ih _ (pairwise_insertByScoreDesc score z acc hacc)

lemma filterMap_if_map {α β : Type} (c : α → Prop) [DecidablePred c] (g : α → β)
    (l : List α) :
    l.filterMap (fun x => if c x then some (g x) else none)
      = (l.filter (fun x => decide (c x))).map g := by
  induction l with
  | nil => rfl
  | cons x rest ih =>
    by_cases h : c x
    · simp [List.filterMap_cons, List.filter_cons, h, ih]
    · simp [List.filterMap_cons, List.filter_cons, h, ih]

lemma find_relevant_segments_mem (encode : Str → List ℚ)
    (cosSim : List ℚ → List ℚ → ℚ) (t : TranscriptRecord) (query : Str)
    (top_n : ℕ) :
    ∀ m ∈ find_relevant_segments encode cosSim true t query top_n,
      ∃ seg ∈ t.segments,
        m = MatchEntry.scored (seg.start ++ " -> ".toList ++ seg.stop) seg.speaker
              seg.text (cosSim (encode query) (encode seg.text))
        ∧ cosSim (encode query) (encode seg.text) > mkRat 3 10 := by
  intro m hm
  rw [find_relevant_segments, if_neg (by simp), filterMap_if_map] at hm
  obtain ⟨p, hp, rfl⟩ := List.mem_map.mp hm
  have hf := List.mem_filter.mp hp
  have hsc : p.2 > mkRat 3 10 := by simpa using hf.2
  have hmem : p ∈ t.segments.map (fun seg =>
      (seg, cosSim (encode query) (encode seg.text))) :=
    (mem_sortByScoreDesc _ _ _).mp (List.mem_of_mem_take hf.1)
  obtain ⟨seg, hseg, hpe⟩ := List.mem_map.mp hmem
  refine ⟨seg, hseg, by rw [← hpe], by rw [← hpe] at hsc; exact hsc⟩

/-- C8: with embeddings available, semantic search over document embeddings
returns at most `top_k` results, ordered by non-increasing similarity
score, each backed by an indexed record carrying an embedding whose
similarity to the query exceeds the 0.3 threshold, and each returned
match is one of that record's segments whose own similarity also exceeds
the 0.3 threshold. -/
theorem embedding_search_contract (encode : Str → List ℚ)
    (cosSim : List ℚ → List ℚ → ℚ) (transcripts : List TranscriptRecord)
    (query : Str) (top_k : ℕ) :
    (embedding_search encode cosSim transcripts true query top_k).length ≤ top_k
    ∧ List.Pairwise (fun a b : SearchResult =>
        a.similarity_score.getD 0 ≥ b.similarity_score.getD 0)
        (embedding_search encode cosSim transcripts true query top_k)
    ∧ ∀ r ∈ embedding_search encode cosSim transcripts true query top_k,
        ∃ i, i < transcripts.length
          ∧ ∃ e, (transcripts.getD i default).embedding = some e
            ∧ r.file_name = (transcripts.getD i default).file_name
            ∧ r.similarity_score = some (cosSim (encode query) e)
            ∧ cosSim (encode query) e > mkRat 3 10
            ∧ ∀ m ∈ r.matchList,
                ∃ seg ∈ (transcripts.getD i default).segments,
                  m = MatchEntry.scored (seg.start ++ " -> ".toList ++ seg.stop)
                        seg.speaker seg.text
                        (cosSim (encode query) (encode seg.text))
                  ∧ cosSim (encode query) (encode seg.text) > mkRat 3 10 := by
  have hunfold : embedding_search encode cosSim transcripts true query top_k
      = (((sortByScoreDesc (fun p => p.2) (transcripts.enum.filterMap (fun p =>
          p.2.embedding.map (fun e => (p.1, cosSim (encode query) e))))).take
          top_k).filter (fun p => decide (p.2 > mkRat 3 10))).map
        (fun p =>
          { file_name := (transcripts.getD p.1 default).file_name,
            language := (transcripts.getD p.1 default).language,
            similarity_score := some p.2,
            matchList := find_relevant_segments encode cosSim true
              (transcripts.getD p.1 default) query 3,
            match_count := some (find_relevant_segments encode cosSim true
              (transcripts.getD p.1 default) query 3).length }) := by
    rw [embedding_search, filterMap_if_map]
  refine ⟨?_, ?_, ?_⟩
  · rw [hunfold, List.length_map]
    exact le_trans (List.length_filter_le _ _) (List.length_take_le _ _)
  · rw [hunfold, List.pairwise_map]
    have h1 := pairwise_sortByScoreDesc (fun p : ℕ × ℚ => p.2)
      (transcripts.enum.filterMap (fun p =>
        p.2.embedding.map (fun e => (p.1, cosSim (encode query) e))))
    have h2 := List.Pairwise.sublist (List.take_sublist top_k _) h1
    have hsub : (((sortByScoreDesc (fun p : ℕ × ℚ => p.2)
        (transcripts.enum.filterMap (fun p =>
          p.2.embedding.map (fun e => (p.1, cosSim (encode query) e))))).take
        top_k).filter (fun p => decide (p.2 > mkRat 3 10))).Sublist
        ((sortByScoreDesc (fun p : ℕ × ℚ => p.2)
        (transcripts.enum.filterMap (fun p =>
          p.2.embedding.map (fun e => (p.1, cosSim (encode query) e))))).take
        top_k) := List.filter_sublist _
    have h3 := List.Pairwise.sublist hsub h2
    exact h3.imp (fun hab => by simpa using hab)
  · intro r hr
    rw [hunfold] at hr
    obtain ⟨p, hp, rfl⟩ := List.mem_map.mp hr
    have hf := List.mem_filter.mp hp
    have hsc : p.2 > mkRat 3 10 := by simpa using hf.2
    have hmemscores : p ∈ transcripts.enum.filterMap (fun p =>
        p.2.embedding.map (fun e => (p.1, cosSim (encode query) e))) :=
      (mem_sortByScoreDesc _ _ _).mp (List.mem_of_mem_take hf.1)
    obtain ⟨q, hq, hqe⟩ := List.mem_filterMap.mp hmemscores
    obtain ⟨e, he, hpe⟩ := Option.map_eq_some'.mp hqe
    obtain ⟨i, t⟩ := q
    have hget : transcripts.get? i = some t := List.mk_mem_enum_iff_get?.mp hq
    have hi : i < transcripts.length := by
      rcases List.get?_eq_some.mp hget with ⟨h, _⟩
      exact h
    have hgetD : transcripts.getD i default = t := by
      simp [List.getD_eq_getElem?_getD, ← List.get?_eq_getElem?, hget]
    subst hpe
    refine ⟨i, hi, e, ?_, rfl, rfl, hsc, ?_⟩
    · rw [hgetD]
      exact he
    · intro m hm
      exact find_relevant_segments_mem encode cosSim _ query 3 m hm

/-- The one result the concrete embedding search below returns. -/
def demoEmbResult : SearchResult :=
  { file_name := "f".toList, language := "en".toList,
    similarity_score := some 1, llm_analysis := none,
    matchList := [.scored "00:00:00 -> 00:00:01".toList "S".toList "hi".toList 1],
    match_count := some 1 }

/-- Witness for C8: the contract applied to a concrete one-record index
whose single result is `demoEmbResult`. -/
theorem embedding_search_contract_witness :
    (embedding_search constEncode constSim [demoEmbRecord] true "q".toList 5).length ≤ 5
    ∧ (∃ i, i < ([demoEmbRecord] : List TranscriptRecord).length
        ∧ ∃ e, (([demoEmbRecord] : List TranscriptRecord).getD i default).embedding
              = some e
          ∧ demoEmbResult.file_name
              = (([demoEmbRecord] : List TranscriptRecord).getD i default).file_name
          ∧ demoEmbResult.similarity_score
              = some (constSim (constEncode "q".toList) e)
          ∧ constSim (constEncode "q".toList) e > mkRat 3 10
          ∧ ∀ m ∈ demoEmbResult.matchList,
              ∃ seg ∈ (([demoEmbRecord] : List TranscriptRecord).getD i
                  default).segments,
                m = MatchEntry.scored (seg.start ++ " -> ".toList ++ seg.stop)
                      seg.speaker seg.text
                      (constSim (constEncode "q".toList)
                        (constEncode seg.text))
                ∧ constSim (constEncode "q".toList) (constEncode seg.text)
                    > mkRat 3 10) :=
  ⟨(embedding_search_contract constEncode constSim [demoEmbRecord] "q".toList 5).1,
   (embedding_search_contract constEncode constSim [demoEmbRecord] "q".toList 5).2.2
     demoEmbResult (by decide)⟩

lemma keyword_search_acc (transcripts : List TranscriptRecord) (query : Str)
    (cs : Bool) (acc : List SearchResult) :
    transcripts.foldl (fun results transcript =>
      if keywordMatches transcript query cs ≠ [] then
        results ++ [{ file_name := transcript.file_name,
                      language := transcript.language,
                      matchList := keywordMatches transcript query cs,
                      match_count := some (keywordMatches transcript query cs).length }]
      else results) acc
    = acc ++ keyword_search transcripts query cs := by
  induction transcripts generalizing acc with
  | nil => simp [keyword_search]
  | cons t rest ih =>
    rw [keyword_search]
    simp only [List.foldl_cons]
    rw [ih, ih]
    by_cases h : keywordMatches t query cs ≠ [] <;> simp [h, List.append_assoc]

lemma keyword_search_cons (t : TranscriptRecord) (rest : List TranscriptRecord)
    (query : Str) (cs : Bool) :
    keyword_search (t :: rest) query cs
      = (if keywordMatches t query cs ≠ [] then
          [{ file_name := t.file_name, language := t.language,
             matchList := keywordMatches t query cs,
             match_count := some (keywordMatches t query cs).length }]
         else []) ++ keyword_search rest query cs := by
  rw [keyword_search]
  simp only [List.foldl_cons]
  rw [keyword_search_acc]
  by_cases h : keywordMatches t query cs ≠ [] <;> simp [h]

lemma keywordMatches_nonempty (t : TranscriptRecord) (query : Str) (cs : Bool)
    (h : keywordMatches t query cs ≠ []) :
    ∃ seg ∈ t.segments,
      (if cs = true then isSubstring query seg.text
       else isSubstring (pyLower query) (pyLower seg.text)) = true := by
  rw [keywordMatches] at h
  cases cs with
  | false =>
    rw [if_pos rfl] at h
    by_cases hf : isSubstring (pyLower query) (pyLower t.full_text) = true
    · rw [if_pos hf] at h
      obtain ⟨x, hx⟩ := List.exists_mem_of_ne_nil _ h
      obtain ⟨seg, hseg, _⟩ := List.mem_map.mp hx
      have hm := List.mem_filter.mp hseg
      exact ⟨seg, hm.1, by simpa using hm.2⟩
    · rw [if_neg hf] at h
      exact absurd rfl h
  | true =>
    rw [if_neg (by simp)] at h
    by_cases hf : isSubstring query t.full_text = true
    · rw [if_pos hf] at h
      obtain ⟨x, hx⟩ := List.exists_mem_of_ne_nil _ h
      obtain ⟨seg, hseg, _⟩ := List.mem_map.mp hx
      have hm := List.mem_filter.mp hseg
      exact ⟨seg, hm.1, by simpa using hm.2⟩
    · rw [if_neg hf] at h
      exact absurd rfl h

/-- C10: keyword search includes a record only if at least one of its
parsed segments contains the query as a substring (after the applicable
case folding). An occurrence confined to the full-text block, or spanning
two adjacent segment texts, produces no match entries, so the record is
omitted. -/
theorem keyword_search_requires_segment_hit (transcripts : List TranscriptRecord)
    (query : Str) (cs : Bool) :
    ∀ r ∈ keyword_search transcripts query cs,
      ∃ t ∈ transcripts, r.file_name = t.file_name
        ∧ ∃ seg ∈ t.segments,
          (if cs = true then isSubstring query seg.text
           else isSubstring (pyLower query) (pyLower seg.text)) = true := by
  induction transcripts with
  | nil => intro r hr; simp [keyword_search] at hr
  | cons t rest ih =>
    intro r hr
    rw [keyword_search_cons] at hr
    rcases List.mem_append.mp hr with h | h
    · by_cases hne : keywordMatches t query cs ≠ []
      · rw [if_pos hne] at h
        obtain rfl := List.mem_singleton.mp h
        obtain ⟨seg, hseg, hsub⟩ := keywordMatches_nonempty t query cs hne
        exact ⟨t, by simp, rfl, seg, hseg, hsub⟩
      · rw [if_neg hne] at h
        exact absurd h (List.not_mem_nil r)
    · obtain ⟨t', ht', hrest⟩ := ih r h
      exact ⟨t', by simp [ht'], hrest⟩

/-- A record whose only occurrence of `ell` is inside a segment. -/
def demoKeywordRecord : TranscriptRecord :=
  { file_name := "f".toList, language := "en".toList,
    segments := [⟨"00:00:00".toList, "00:00:01".toList, "S".toList, "hello".toList⟩],
    full_text := "hello".toList, embedding := none }

/-- The result keyword search returns on `demoKeywordRecord` for `ell`. -/
def demoKeywordResult : SearchResult :=
  { file_name := "f".toList, language := "en".toList,
    matchList := [.keyword "00:00:00 -> 00:00:01".toList "S".toList "hello".toList
      "h**ell**o".toList],
    match_count := some 1 }

/-- Witness for C10: the only-if direction applied to a concrete hit. -/
theorem keyword_search_requires_segment_hit_witness :
    ∃ t ∈ [demoKeywordRecord], demoKeywordResult.file_name = t.file_name
      ∧ ∃ seg ∈ t.segments,
        (if false = true then isSubstring "ell".toList seg.text
         else isSubstring (pyLower "ell".toList) (pyLower seg.text)) = true :=
  keyword_search_requires_segment_hit [demoKeywordRecord] "ell".toList false
    demoKeywordResult (by decide)
